import Mathlib

/-!
Shallow embedding of `bin/locate-thumbnail.py` (darkseed/image-mining).

Images are modelled as lists of pixel rows (`List (List Int)`); numpy /
OpenCV primitives used by the script (array slicing, `numpy.rot90`,
`cv2.flip`, `cv2.resize` dimensions, `cv2.perspectiveTransform`,
`numpy.int32` truncation, `numpy.argmin` / `numpy.argmax`) are modelled
by executable Lean functions with the semantics documented for those
libraries.  Real-valued arithmetic is carried out exactly over `ℚ`
(the script's float arithmetic), and `numpy.int32` conversion is
truncation toward zero (int32 overflow is outside the modelled range).
The external, randomised `cv2.findHomography` estimator is a parameter
of the functions that call it.
-/

namespace ImageMining

/-- An image: a list of pixel rows (`shape[0]` = number of rows). -/
abbrev Image := List (List Int)

/-- `img.shape[0]`. -/
def imHeight (img : Image) : Nat := img.length

/-- `img.shape[1]`: length of the first row (images are rectangular in numpy). -/
def imWidth (img : Image) : Nat := (img.headD []).length

/-- Pixel access `img[r][c]` (0 outside bounds; only used in-bounds). -/
def pixel (img : Image) (r c : Nat) : Int := (img.getD r []).getD c 0

/-- Python slice-index normalisation for `l[a:b]`: a negative index has the
length added (then floors at 0), a too-large index is clipped to the length. -/
def pyIdx (n : Nat) (i : Int) : Nat :=
  if i < 0 then (i + n).toNat else min i.toNat n

/-- Python list/array slice `l[a:b]` (step 1). -/
def pySlice {α : Type} (l : List α) (a b : Int) : List α :=
  (l.drop (pyIdx l.length a)).take (pyIdx l.length b - pyIdx l.length a)

/-- 2-d numpy slice `img[y0:y1, x0:x1]`, as used on line 99 of the script:
`source_image[slice(*new_thumb_crop[0]), slice(*new_thumb_crop[1])]`. -/
def cropRegion (img : Image) (crop : (Int × Int) × (Int × Int)) : Image :=
  (pySlice img crop.1.1 crop.1.2).map (fun row => pySlice row crop.2.1 crop.2.2)

/-- `cv2.KeyPoint`: only the `pt` field is used by the script. -/
structure KeyPoint where
  pt : ℚ × ℚ
deriving DecidableEq

/-- Fallback keypoint (Python list indexing is only ever in bounds here). -/
def dKP : KeyPoint := ⟨(0, 0)⟩

/-- `cv2.DMatch`: the fields the script reads. -/
structure DMatch where
  queryIdx : Nat
  trainIdx : Nat
  distance : ℚ
deriving DecidableEq

/-- The default value of the `ratio` parameter of `filter_matches` (0.75). -/
def ratioDefault : ℚ := 3 / 4

/-- `filter_matches(kp1, kp2, matches, ratio)` (lines 39–46): keep the pair
for `m1` whenever `m1.distance < m2.distance * ratio`, appending
`(kp1[m1.queryIdx], kp2[m1.trainIdx])` in input order. -/
def filter_matches (kp1 kp2 : List KeyPoint) (raw_matches : List (DMatch × DMatch))
    (ratio : ℚ) : List (KeyPoint × KeyPoint) :=
  match raw_matches with
  | [] => []
  | (m1, m2) :: rest =>
    if m1.distance < m2.distance * ratio then
      (kp1.getD m1.queryIdx dKP, kp2.getD m1.trainIdx dKP)
        :: filter_matches kp1 kp2 rest ratio
    else
      filter_matches kp1 kp2 rest ratio

/-- `min` of a non-empty list, as Python's built-in `min` (0 on `[]`,
which the script never hits: the corner list always has four points). -/
def listMin : List Int → Int
  | [] => 0
  | x :: xs => xs.foldl min x

/-- `max` of a non-empty list, as Python's built-in `max`. -/
def listMax : List Int → Int
  | [] => 0
  | x :: xs => xs.foldl max x

/-- `numpy.argmin`: index of the first occurrence of the minimum. -/
def argminIdx (l : List Int) : Nat := l.findIdx (fun x => x == listMin l)

/-- `numpy.argmax`: index of the first occurrence of the maximum. -/
def argmaxIdx (l : List Int) : Nat := l.findIdx (fun x => x == listMax l)

/-- `numpy.rot90(m, 1)` (rotate 90° counter-clockwise):
`rot90(m)[i, j] = m[j, w - 1 - i]`; row `i` of the result is column
`w - 1 - i` of `m` read top-to-bottom. -/
def rot90ccw (m : Image) : Image :=
  ((List.range (imWidth m)).reverse).map (fun c => m.map (fun row => row.getD c 0))

/-- `numpy.rot90(m, 3)` (rotate 90° clockwise):
`rot90(m, 3)[i, j] = m[h - 1 - j, i]`; row `i` of the result is column `i`
of `m` read bottom-to-top. -/
def rot90cw (m : Image) : Image :=
  (List.range (imWidth m)).map (fun c => (m.map (fun row => row.getD c 0)).reverse)

/-- `cv2.flip(m, -1)`: mirror on both axes. -/
def flipBoth (m : Image) : Image := (m.map List.reverse).reverse

/-- `autorotate_image(img, corners)` (lines 49–62): classify the rotation by
the tuple `(argmin(y), argmax(y), argmin(x), argmax(x))` over the four
projected corners (each corner is an `(x, y)` point) and normalise the
pixels accordingly. -/
def autorotate_image (img : Image) (corners : List (Int × Int)) : Int × Image :=
  let corners_x := corners.map Prod.fst
  let corners_y := corners.map Prod.snd
  let high_corners := (argminIdx corners_y, argmaxIdx corners_y,
                       argminIdx corners_x, argmaxIdx corners_x)
  if high_corners = (0, 1, 3, 1) then (90, rot90ccw img)
  else if high_corners = (3, 0, 1, 0) then (180, flipBoth img)
  else if high_corners = (1, 3, 0, 2) then (270, rot90cw img)
  else (0, img)

/-- Python 2 `round`: round half away from zero. -/
def pyRound (q : ℚ) : Int := if 0 ≤ q then ⌊q + 1 / 2⌋ else ⌈q - 1 / 2⌉

/-- `cv2.resize(img, (newW, newH))`: the output has exactly `newH` rows of
`newW` pixels; the `INTER_AREA` resampling of pixel values is abstracted to
nearest-neighbour sampling (the claims only concern dimensions). -/
def cvResize (img : Image) (newW newH : Nat) : Image :=
  (List.range newH).map (fun i =>
    (List.range newW).map (fun j =>
      pixel img (i * imHeight img / newH) (j * imWidth img / newW)))

/-- `fit_image_within(img, max_height, max_width)` (lines 65–81): return the
image unchanged when it already fits, otherwise scale by `max_height / h`
when the image is strictly taller than wide and by `max_width / w`
otherwise, rounding both new dimensions. -/
def fit_image_within (img : Image) (max_height max_width : Nat) : Image :=
  let current_h := imHeight img
  let current_w := imWidth img
  if current_h ≤ max_height ∧ current_w ≤ max_width then img
  else
    let scale : ℚ :=
      if current_h > current_w then (max_height : ℚ) / current_h
      else (max_width : ℚ) / current_w
    cvResize img (pyRound (current_w * scale)).toNat (pyRound (current_h * scale)).toNat

/-- A 3×3 homography matrix with exact rational entries. -/
structure Homography where
  m00 : ℚ
  m01 : ℚ
  m02 : ℚ
  m10 : ℚ
  m11 : ℚ
  m12 : ℚ
  m20 : ℚ
  m21 : ℚ
  m22 : ℚ
deriving DecidableEq

/-- `cv2.perspectiveTransform` on a single point: homogeneous perspective
division `(x, y) ↦ ((m00 x + m01 y + m02) / d, (m10 x + m11 y + m12) / d)`
with `d = m20 x + m21 y + m22` (division by zero yields 0 in `ℚ`). -/
def projectPoint (H : Homography) (p : ℚ × ℚ) : ℚ × ℚ :=
  let d := H.m20 * p.1 + H.m21 * p.2 + H.m22
  ((H.m00 * p.1 + H.m01 * p.2 + H.m02) / d,
   (H.m10 * p.1 + H.m11 * p.2 + H.m12) / d)

/-- `numpy.int32` conversion of a float: truncation toward zero. -/
def trunc32 (q : ℚ) : Int := if 0 ≤ q then ⌊q⌋ else ⌈q⌉

/-- Lines 90–91: the template's corners `(0,0), (w,0), (w,h), (0,h)` pushed
through the homography and truncated to integers. -/
def projCorners (thumb : Image) (H : Homography) : List (Int × Int) :=
  let thumb_w : ℚ := (imWidth thumb : ℚ)
  let thumb_h : ℚ := (imHeight thumb : ℚ)
  ([((0 : ℚ), (0 : ℚ)), (thumb_w, 0), (thumb_w, thumb_h), (0, thumb_h)]).map
    (fun p => let q := projectPoint H p; (trunc32 q.1, trunc32 q.2))

/-- `reconstruct_thumbnail(thumbnail_image, source_image, kp_pairs, H,
downsize_reconstruction)` (lines 84–112); `kp_pairs` is only logged, so it
is not a parameter of the model.  Returns
`(new_thumb, new_thumb_crop, new_thumb_rotation)` with
`new_thumb_crop = ((min y, max y), (min x, max x))`. -/
def reconstruct_thumbnail (thumb source : Image) (H : Homography)
    (downsize_reconstruction : Bool) : Image × ((Int × Int) × (Int × Int)) × Int :=
  let corners := projCorners thumb H
  let corners_x := corners.map Prod.fst
  let corners_y := corners.map Prod.snd
  let new_thumb_crop := ((listMin corners_y, listMax corners_y),
                         (listMin corners_x, listMax corners_x))
  let new_thumb := cropRegion source new_thumb_crop
  let rotated := autorotate_image new_thumb corners
  let new_thumb := rotated.2
  let new_thumb :=
    if downsize_reconstruction ∧
        (imHeight thumb < imHeight new_thumb ∨ imWidth thumb < imWidth new_thumb) then
      fit_image_within new_thumb (imHeight thumb) (imWidth thumb)
    else new_thumb
  (new_thumb, new_thumb_crop, rotated.1)

/-- The external `cv2.findHomography(p1, p2, cv2.RANSAC, 5.0)` estimator,
abstracted: it takes the two point arrays and yields a homography and an
inlier mask. -/
abbrev Estimator := List (ℚ × ℚ) → List (ℚ × ℚ) → Homography × List Bool

/-- `find_homography(kp_pairs)` (lines 160–171).  `zip(*kp_pairs)` raises on
an empty list, and `assert len(kp_pairs) >= 4` aborts on fewer than four
pairs; both aborts are modelled by `none`.  Otherwise the external
estimator is applied to the two point arrays. -/
def find_homography (est : Estimator) (kp_pairs : List (KeyPoint × KeyPoint)) :
    Option (Homography × List Bool) :=
  match kp_pairs with
  | [] => none
  | _ :: _ =>
    let p1 := kp_pairs.map (fun kpp => kpp.1.pt)
    let p2 := kp_pairs.map (fun kpp => kpp.2.pt)
    if 4 ≤ kp_pairs.length then some (est p1 p2) else none

/-- The JSON report printed by `locate_thumbnail` on success (lines 190–212). -/
structure Report where
  master_height : Nat
  master_width : Nat
  thumb_height : Nat
  thumb_width : Nat
  bb_height : Int
  bb_width : Int
  bb_x : Int
  bb_y : Int
  rotation_degrees : Int
deriving DecidableEq

/-- Outcome of `locate_thumbnail`: the JSON report, or the
"Found only n matches; skipping reconstruction" warning carrying the match
count and no geometry, or a propagated exception. -/
inductive LocateResult
  | found : Report → LocateResult
  | noMatch : Nat → LocateResult
  | error : LocateResult
deriving DecidableEq

/-- `locate_thumbnail` (lines 174–233), restricted to the core pipeline: the
images are already loaded, `kp_pairs` is the Feature Matcher's output, and
display/save-file side channels are out of scope. -/
def locate_thumbnail (est : Estimator) (thumb source : Image)
    (kp_pairs : List (KeyPoint × KeyPoint)) : LocateResult :=
  if 4 ≤ kp_pairs.length then
    match find_homography est kp_pairs with
    | some (H, _mask) =>
      let r := reconstruct_thumbnail thumb source H false
      let corners := r.2.1
      .found { master_height := imHeight source
               master_width := imWidth source
               thumb_height := imHeight thumb
               thumb_width := imWidth thumb
               bb_height := corners.1.2 - corners.1.1
               bb_width := corners.2.2 - corners.2.1
               bb_x := corners.2.1
               bb_y := corners.1.1
               rotation_degrees := r.2.2 }
    | none => .error
  else
    .noMatch kp_pairs.length

/-! ### Concrete sample inputs used by witnesses and counterexamples -/

/-- A constant stand-in for the external estimator (identity homography). -/
def estConst : Estimator := fun _ _ => (⟨1, 0, 0, 0, 1, 0, 0, 0, 1⟩, [])

/-- Sample template keypoints. -/
def kp1w : List KeyPoint := [⟨(1, 2)⟩, ⟨(3, 4)⟩]

/-- Sample source keypoints. -/
def kp2w : List KeyPoint := [⟨(5, 6)⟩]

/-- Sample raw k-NN matches: the first passes the 0.75 ratio test
(1 < 2 · 0.75), the second fails it (5 ≥ 2 · 0.75). -/
def msw : List (DMatch × DMatch) :=
  [(⟨0, 0, 1⟩, ⟨0, 0, 2⟩), (⟨1, 0, 5⟩, ⟨1, 0, 2⟩)]

/-! ### Theorems -/

/-- C9: an image that already fits within both maxima is returned unchanged
(the early return on lines 69–70). -/
theorem fit_image_within_id (img : Image) (mh mw : Nat)
    (h1 : imHeight img ≤ mh) (h2 : imWidth img ≤ mw) :
    fit_image_within img mh mw = img := by
  simp [fit_image_within, h1, h2]

/-- C9 witness: a 2×2 image fits within 3×3 and is returned as-is. -/
theorem fit_image_within_id_witness :
    fit_image_within [[1, 2], [3, 4]] 3 3 = [[1, 2], [3, 4]] :=
  fit_image_within_id [[1, 2], [3, 4]] 3 3 (by decide) (by decide)

/-- C7: `find_homography` aborts (unpacking error or `assert`) before any
homography is produced whenever fewer than 4 pairs are given, and the guard
passes (the estimator's output is returned) for 4 or more pairs. -/
theorem find_homography_min_pairs (est : Estimator)
    (kp_pairs : List (KeyPoint × KeyPoint)) :
    (kp_pairs.length < 4 → find_homography est kp_pairs = none) ∧
    (4 ≤ kp_pairs.length → (find_homography est kp_pairs).isSome = true) := by
  constructor
  · intro h
    cases kp_pairs with
    | nil => rfl
    | cons a l =>
      simp only [find_homography]
      rw [if_neg (by omega)]
  · intro h
    cases kp_pairs with
    | nil => simp at h
    | cons a l =>
      simp only [find_homography]
      rw [if_pos h]
      rfl

/-- C7 witness: 2 pairs abort, 4 pairs pass the guard. -/
theorem find_homography_min_pairs_witness :
    find_homography estConst (List.replicate 2 (dKP, dKP)) = none ∧
    (find_homography estConst (List.replicate 4 (dKP, dKP))).isSome = true :=
  ⟨(find_homography_min_pairs estConst (List.replicate 2 (dKP, dKP))).1 (by decide),
   (find_homography_min_pairs estConst (List.replicate 4 (dKP, dKP))).2 (by decide)⟩

/-- C2: with fewer than 4 correspondences, `locate_thumbnail` reaches the
terminal no-match outcome recording the match count and carrying no
geometry, and the result does not depend on the homography estimator
(estimation and reconstruction are skipped entirely). -/
theorem locate_thumbnail_insufficient_matches (est : Estimator)
    (thumb source : Image) (kp_pairs : List (KeyPoint × KeyPoint))
    (h : kp_pairs.length < 4) :
    locate_thumbnail est thumb source kp_pairs = .noMatch kp_pairs.length ∧
    ∀ est' : Estimator, locate_thumbnail est' thumb source kp_pairs =
      locate_thumbnail est thumb source kp_pairs := by
  have hn : ¬ 4 ≤ kp_pairs.length := by omega
  refine ⟨?_, fun est' => ?_⟩ <;> simp [locate_thumbnail, hn]

/-- C2 witness: one correspondence yields the no-match outcome with count 1,
independently of the estimator. -/
theorem locate_thumbnail_insufficient_matches_witness :
    locate_thumbnail estConst [[1]] [[2]] [(dKP, dKP)] = .noMatch 1 ∧
    ∀ est' : Estimator, locate_thumbnail est' [[1]] [[2]] [(dKP, dKP)] =
      locate_thumbnail estConst [[1]] [[2]] [(dKP, dKP)] :=
  locate_thumbnail_insufficient_matches estConst [[1]] [[2]] [(dKP, dKP)] (by decide)

/-- C4: `filter_matches` keeps a raw pair `(m1, m2)` exactly when
`m1.distance < ratio * m2.distance` (the default `ratio` being 0.75),
producing the keypoint pairs in input order; and when the raw matches are
enumerated by increasing template keypoint index (as `knnMatch` produces
them), the survivors remain in template keypoint enumeration order. -/
theorem filter_matches_ratio_test (kp1 kp2 : List KeyPoint)
    (ms : List (DMatch × DMatch)) (ratio : ℚ) :
    ratioDefault = 3 / 4 ∧
    filter_matches kp1 kp2 ms ratio =
      (ms.filter (fun p => decide (p.1.distance < ratio * p.2.distance))).map
        (fun p => (kp1.getD p.1.queryIdx dKP, kp2.getD p.1.trainIdx dKP)) ∧
    (List.Pairwise (· ≤ ·) (ms.map (fun p => p.1.queryIdx)) →
      List.Pairwise (· ≤ ·)
        ((ms.filter (fun p => decide (p.1.distance < ratio * p.2.distance))).map
          (fun p => p.1.queryIdx))) := by
  refine ⟨rfl, ?_, ?_⟩
  · induction ms with
    | nil => simp [filter_matches]
    | cons p rest ih =>
      obtain ⟨m1, m2⟩ := p
      by_cases hc : m1.distance < m2.distance * ratio
      · have hc' : m1.distance < ratio * m2.distance := by rwa [mul_comm]
        simp [filter_matches, hc, hc', ih]
      · have hc' : ¬ m1.distance < ratio * m2.distance := by rwa [mul_comm]
        simp [filter_matches, hc, hc', ih]
  · intro h
    exact h.sublist ((List.filter_sublist ms).map _)

/-- C4 witness: on the sample matches with the default ratio, exactly the
unambiguous first match survives, and the surviving template indices are in
enumeration order. -/
theorem filter_matches_ratio_test_witness :
    filter_matches kp1w kp2w msw ratioDefault =
      ((msw.filter (fun p => decide (p.1.distance < ratioDefault * p.2.distance))).map
        (fun p => (kp1w.getD p.1.queryIdx dKP, kp2w.getD p.1.trainIdx dKP))) ∧
    List.Pairwise (· ≤ ·)
      ((msw.filter (fun p => decide (p.1.distance < ratioDefault * p.2.distance))).map
        (fun p => p.1.queryIdx)) :=
  ⟨(filter_matches_ratio_test kp1w kp2w msw ratioDefault).2.1,
   (filter_matches_ratio_test kp1w kp2w msw ratioDefault).2.2 (by decide)⟩

/-- C8: for a fixed raw match list (with the nonnegative distances a metric
produces), lowering the ratio threshold never increases the number of
surviving correspondences. -/
theorem filter_matches_ratio_monotone (kp1 kp2 : List KeyPoint)
    (ms : List (DMatch × DMatch)) (r1 r2 : ℚ) (hr : r1 ≤ r2)
    (hd : ∀ p ∈ ms, 0 ≤ p.2.distance) :
    (filter_matches kp1 kp2 ms r1).length ≤ (filter_matches kp1 kp2 ms r2).length := by
  induction ms with
  | nil => simp [filter_matches]
  | cons p rest ih =>
    obtain ⟨m1, m2⟩ := p
    have hd2 : 0 ≤ m2.distance := hd (m1, m2) (by simp)
    have ih' := ih (fun q hq => hd q (by simp [hq]))
    by_cases hc : m1.distance < m2.distance * r1
    · have hc2 : m1.distance < m2.distance * r2 :=
        lt_of_lt_of_le hc (mul_le_mul_of_nonneg_left hr hd2)
      simp only [filter_matches, hc, hc2, if_true, List.length_cons]
      omega
    · by_cases hc2 : m1.distance < m2.distance * r2
      · simp only [filter_matches, hc, hc2, if_true, if_false, List.length_cons]
        omega
      · simp only [filter_matches, hc, hc2, if_false]
        exact ih'

/-- Pointwise reading of the `numpy.rot90(·, 1)` model: entry `(i, j)` of
the rotated image is entry `(j, w - 1 - i)` of the original. -/
lemma pixel_rot90ccw (m : Image) (i j : Nat) (hi : i < imWidth m)
    (hj : j < imHeight m) :
    pixel (rot90ccw m) i j = pixel m j (imWidth m - 1 - i) := by
  unfold imHeight at hj
  have h1 : i < (rot90ccw m).length := by simpa [rot90ccw] using hi
  have hrow : (rot90ccw m)[i] =
      m.map (fun row => row.getD (imWidth m - 1 - i) 0) := by
    unfold rot90ccw
    rw [List.getElem_map, List.getElem_reverse]
    simp
  unfold pixel
  rw [List.getD_eq_getElem (rot90ccw m) [] h1, hrow,
    List.getD_eq_getElem _ _ (by simpa using hj), List.getElem_map,
    List.getD_eq_getElem m [] hj]

/-- Pointwise reading of the `numpy.rot90(·, 3)` model: entry `(i, j)` of
the rotated image is entry `(h - 1 - j, i)` of the original. -/
lemma pixel_rot90cw (m : Image) (i j : Nat) (hi : i < imWidth m)
    (hj : j < imHeight m) :
    pixel (rot90cw m) i j = pixel m (imHeight m - 1 - j) i := by
  unfold imHeight at hj ⊢
  have h1 : i < (rot90cw m).length := by simpa [rot90cw] using hi
  have hrow : (rot90cw m)[i] = (m.map (fun row => row.getD i 0)).reverse := by
    unfold rot90cw
    rw [List.getElem_map, List.getElem_range]
  unfold pixel
  rw [List.getD_eq_getElem (rot90cw m) [] h1, hrow,
    List.getD_eq_getElem _ _ (by simpa using hj), List.getElem_reverse,
    List.getElem_map, List.getD_eq_getElem m [] (by omega)]
  simp only [List.length_map]

/-- Pointwise reading of the `cv2.flip(·, -1)` model on a rectangular image:
entry `(i, j)` of the flip is entry `(h - 1 - i, w - 1 - j)` of the
original. -/
lemma pixel_flipBoth (m : Image) (hrect : ∀ row ∈ m, row.length = imWidth m)
    (i j : Nat) (hi : i < imHeight m) (hj : j < imWidth m) :
    pixel (flipBoth m) i j = pixel m (imHeight m - 1 - i) (imWidth m - 1 - j) := by
  unfold imHeight at hi ⊢
  have h1 : i < (flipBoth m).length := by simpa [flipBoth] using hi
  have hrow : (flipBoth m)[i] =
      (m[m.length - 1 - i]).reverse := by
    unfold flipBoth
    rw [List.getElem_reverse, List.getElem_map]
    simp
  have hlen : (m[m.length - 1 - i]).length = imWidth m :=
    hrect _ (List.getElem_mem _)
  unfold pixel
  rw [List.getD_eq_getElem (flipBoth m) [] h1, hrow,
    List.getD_eq_getElem _ _ (by simp [hlen]; omega), List.getElem_reverse,
    List.getD_eq_getElem m [] (by omega),
    List.getD_eq_getElem _ 0 (by rw [hlen]; omega)]
  simp only [hlen]

/-- C8 witness: on the sample matches, ratio 1/2 keeps no more than
ratio 3/4 does. -/
theorem filter_matches_ratio_monotone_witness :
    (filter_matches kp1w kp2w msw (1 / 2)).length ≤
      (filter_matches kp1w kp2w msw (3 / 4)).length :=
  filter_matches_ratio_monotone kp1w kp2w msw (1 / 2) (3 / 4) (by norm_num)
    (by decide)

/-- `listMin` on a four-element list is the iterated binary minimum. -/
lemma listMin_four (a b c d : Int) :
    listMin [a, b, c, d] = min (min (min a b) c) d := rfl

/-- `listMax` on a four-element list is the iterated binary maximum. -/
lemma listMax_four (a b c d : Int) :
    listMax [a, b, c, d] = max (max (max a b) c) d := rfl

/-- The minimum of four values never exceeds their maximum. -/
lemma listMin_le_listMax_four (a b c d : Int) :
    listMin [a, b, c, d] ≤ listMax [a, b, c, d] := by
  rw [listMin_four, listMax_four]
  omega

/-- C5: `autorotate_image` is the discrete classifier on the tuple
`(argmin y, argmax y, argmin x, argmax x)` of the four projected corners:
`(0,1,3,1)` gives class 90 with the pixels rotated 90° (entry `(i,j)` comes
from entry `(j, w-1-i)`), `(3,0,1,0)` gives class 180 with the pixels
mirrored on both axes, `(1,3,0,2)` gives class 270 with the pixels rotated
the other way, and any other configuration gives class 0 with the pixels
unchanged. -/
theorem autorotate_image_classification (img : Image) (corners : List (Int × Int)) :
    autorotate_image img corners =
      (if (argminIdx (corners.map Prod.snd), argmaxIdx (corners.map Prod.snd),
           argminIdx (corners.map Prod.fst), argmaxIdx (corners.map Prod.fst)) =
           ((0 : Nat), (1 : Nat), (3 : Nat), (1 : Nat)) then ((90 : Int), rot90ccw img)
       else if (argminIdx (corners.map Prod.snd), argmaxIdx (corners.map Prod.snd),
           argminIdx (corners.map Prod.fst), argmaxIdx (corners.map Prod.fst)) =
           ((3 : Nat), (0 : Nat), (1 : Nat), (0 : Nat)) then (180, flipBoth img)
       else if (argminIdx (corners.map Prod.snd), argmaxIdx (corners.map Prod.snd),
           argminIdx (corners.map Prod.fst), argmaxIdx (corners.map Prod.fst)) =
           ((1 : Nat), (3 : Nat), (0 : Nat), (2 : Nat)) then (270, rot90cw img)
       else (0, img)) ∧
    (∀ i j, i < imWidth img → j < imHeight img →
      pixel (rot90ccw img) i j = pixel img j (imWidth img - 1 - i)) ∧
    ((∀ row ∈ img, row.length = imWidth img) → ∀ i j,
      i < imHeight img → j < imWidth img →
      pixel (flipBoth img) i j =
        pixel img (imHeight img - 1 - i) (imWidth img - 1 - j)) ∧
    (∀ i j, i < imWidth img → j < imHeight img →
      pixel (rot90cw img) i j = pixel img (imHeight img - 1 - j) i) :=
  ⟨rfl,
   fun i j hi hj => pixel_rot90ccw img i j hi hj,
   fun hrect i j hi hj => pixel_flipBoth img hrect i j hi hj,
   fun i j hi hj => pixel_rot90cw img i j hi hj⟩

/-- C5 witness: the pixel-level rotation facts evaluated on a concrete
2×2 image. -/
theorem autorotate_image_classification_witness :
    pixel (rot90ccw [[1, 2], [3, 4]]) 0 1 = pixel [[1, 2], [3, 4]] 1 1 ∧
    pixel (flipBoth [[1, 2], [3, 4]]) 0 1 = pixel [[1, 2], [3, 4]] 1 0 ∧
    pixel (rot90cw [[1, 2], [3, 4]]) 0 1 = pixel [[1, 2], [3, 4]] 0 0 :=
  ⟨(autorotate_image_classification [[1, 2], [3, 4]] []).2.1 0 1
      (by decide) (by decide),
   (autorotate_image_classification [[1, 2], [3, 4]] []).2.2.1
      (by decide) 0 1 (by decide) (by decide),
   (autorotate_image_classification [[1, 2], [3, 4]] []).2.2.2 0 1
      (by decide) (by decide)⟩

/-- C6: `reconstruct_thumbnail` forms the template corners
`(0,0), (w,0), (w,h), (0,h)` in exactly this order, projects each through
the homography by homogeneous perspective division, and returns as crop box
the axis-aligned bounding box `(min y .. max y) × (min x .. max x)` of the
four projected corners. -/
theorem reconstruct_thumbnail_corners_bbox (t s : Image) (H : Homography) :
    projCorners t H =
      [((0 : ℚ), (0 : ℚ)), ((imWidth t : ℚ), (0 : ℚ)),
       ((imWidth t : ℚ), (imHeight t : ℚ)), ((0 : ℚ), (imHeight t : ℚ))].map
        (fun p =>
          (trunc32 ((H.m00 * p.1 + H.m01 * p.2 + H.m02) /
              (H.m20 * p.1 + H.m21 * p.2 + H.m22)),
           trunc32 ((H.m10 * p.1 + H.m11 * p.2 + H.m12) /
              (H.m20 * p.1 + H.m21 * p.2 + H.m22)))) ∧
    (reconstruct_thumbnail t s H false).2.1 =
      ((min (min (min ((projCorners t H).getD 0 (0, 0)).2
                      ((projCorners t H).getD 1 (0, 0)).2)
                 ((projCorners t H).getD 2 (0, 0)).2)
            ((projCorners t H).getD 3 (0, 0)).2,
        max (max (max ((projCorners t H).getD 0 (0, 0)).2
                      ((projCorners t H).getD 1 (0, 0)).2)
                 ((projCorners t H).getD 2 (0, 0)).2)
            ((projCorners t H).getD 3 (0, 0)).2),
       (min (min (min ((projCorners t H).getD 0 (0, 0)).1
                      ((projCorners t H).getD 1 (0, 0)).1)
                 ((projCorners t H).getD 2 (0, 0)).1)
            ((projCorners t H).getD 3 (0, 0)).1,
        max (max (max ((projCorners t H).getD 0 (0, 0)).1
                      ((projCorners t H).getD 1 (0, 0)).1)
                 ((projCorners t H).getD 2 (0, 0)).1)
            ((projCorners t H).getD 3 (0, 0)).1)) :=
  ⟨rfl, rfl⟩

/-- Non-negativity of the bounding-box dimensions reported by
`locate_thumbnail`, stated per outcome. -/
def bbNonneg : LocateResult → Prop
  | .found r => 0 ≤ r.bb_height ∧ 0 ≤ r.bb_width
  | _ => True

/-- C10: the crop box satisfies `y_min ≤ y_max` and `x_min ≤ x_max` for
every homography and pair of images, so the height and width fields of any
report emitted by `locate_thumbnail` are non-negative. -/
theorem crop_box_ordered_nonneg :
    (∀ (t s : Image) (H : Homography),
      (reconstruct_thumbnail t s H false).2.1.1.1 ≤
          (reconstruct_thumbnail t s H false).2.1.1.2 ∧
      (reconstruct_thumbnail t s H false).2.1.2.1 ≤
          (reconstruct_thumbnail t s H false).2.1.2.2) ∧
    (∀ (est : Estimator) (t s : Image) (kps : List (KeyPoint × KeyPoint)),
      bbNonneg (locate_thumbnail est t s kps)) := by
  have hcrop : ∀ (t s : Image) (H : Homography),
      (reconstruct_thumbnail t s H false).2.1.1.1 ≤
          (reconstruct_thumbnail t s H false).2.1.1.2 ∧
      (reconstruct_thumbnail t s H false).2.1.2.1 ≤
          (reconstruct_thumbnail t s H false).2.1.2.2 := by
    intro t s H
    constructor
    · exact listMin_le_listMax_four _ _ _ _
    · exact listMin_le_listMax_four _ _ _ _
  refine ⟨hcrop, fun est t s kps => ?_⟩
  unfold locate_thumbnail
  by_cases h4 : 4 ≤ kps.length
  · rw [if_pos h4]
    cases kps with
    | nil => simp at h4
    | cons a l =>
      simp only [find_homography]
      rw [if_pos h4]
      have h := hcrop t s (est ((a :: l).map fun kpp => kpp.1.pt)
        ((a :: l).map fun kpp => kpp.2.pt)).1
      exact ⟨by simpa using Int.sub_nonneg.mpr h.1, by simpa using Int.sub_nonneg.mpr h.2⟩
  · rw [if_neg h4]
    trivial

/-- A Python slice is a contiguous (hence order-preserving) sublist. -/
lemma pySlice_sublist {α : Type} (l : List α) (a b : Int) :
    (pySlice l a b).Sublist l :=
  (List.take_sublist _ _).trans (List.drop_sublist _ _)

/-- Rotating the empty image yields the empty image, whatever the corners. -/
lemma autorotate_nil (cs : List (Int × Int)) : (autorotate_image [] cs).2 = [] := by
  unfold autorotate_image rot90ccw rot90cw flipBoth
  dsimp only
  split_ifs <;> rfl

/-- `trunc32` is the identity on integer-valued rationals. -/
lemma trunc32_intCast (z : ℤ) : trunc32 ((z : ℚ)) = z := by
  unfold trunc32
  split_ifs with h
  · exact Int.floor_intCast z
  · exact Int.ceil_intCast z

/-- Evaluation form of `trunc32` for concrete rationals. -/
lemma trunc32_eval (z : ℤ) (q : ℚ) (h : q = (z : ℚ)) : trunc32 q = z := by
  rw [h, trunc32_intCast]

/-- C1 amended: `reconstruct_thumbnail` performs no clamping as such; the
slice obeys Python semantics (negative coordinates wrap around from the end
of the axis, out-of-range bounds are clipped), so every extracted row is a
contiguous piece of a source row and the extracted region never has more
rows than the source — no out-of-range access occurs — and a crop box whose
normalised y-range is empty yields the empty image as a normally returned
result, not a reported failure. -/
theorem reconstruct_thumbnail_no_clamp_safe (t s : Image) (H : Homography) :
    (∀ row ∈ cropRegion s (reconstruct_thumbnail t s H false).2.1,
      ∃ orig ∈ s, row.Sublist orig) ∧
    (cropRegion s (reconstruct_thumbnail t s H false).2.1).length ≤ s.length ∧
    (pyIdx s.length (reconstruct_thumbnail t s H false).2.1.1.2 ≤
        pyIdx s.length (reconstruct_thumbnail t s H false).2.1.1.1 →
      (reconstruct_thumbnail t s H false).1 = []) := by
  refine ⟨?_, ?_, ?_⟩
  · intro row hrow
    unfold cropRegion at hrow
    obtain ⟨r, hr, rfl⟩ := List.mem_map.mp hrow
    exact ⟨r, (pySlice_sublist s _ _).subset hr, pySlice_sublist r _ _⟩
  · unfold cropRegion pySlice
    simp only [List.length_map, List.length_take, List.length_drop]
    omega
  · intro hz
    have hempty : cropRegion s (reconstruct_thumbnail t s H false).2.1 = [] := by
      unfold cropRegion pySlice
      rw [Nat.sub_eq_zero_of_le hz]
      simp
    have hrw : (reconstruct_thumbnail t s H false).1 =
        (autorotate_image
          (cropRegion s (reconstruct_thumbnail t s H false).2.1)
          (projCorners t H)).2 := rfl
    rw [hrw, hempty, autorotate_nil]

/-- 2×2 template used in the clamping counterexample. -/
def thumbCE : Image := [[0, 0], [0, 0]]

/-- 4×4 source with distinct pixel values. -/
def srcCE : Image :=
  [[0, 1, 2, 3], [10, 11, 12, 13], [20, 21, 22, 23], [30, 31, 32, 33]]

/-- Pure translation by (-3, -3): projects the template's corners to
negative source coordinates. -/
def hTransCE : Homography := ⟨1, 0, -3, 0, 1, -3, 0, 0, 1⟩

/-- Degenerate homography sending every corner to (0, 0). -/
def hZeroCE : Homography := ⟨0, 0, 0, 0, 0, 0, 0, 0, 1⟩

/-- The projected corners under the (-3, -3) translation. -/
lemma projCorners_hTransCE :
    projCorners thumbCE hTransCE = [(-3, -3), (-1, -3), (-1, -1), (-3, -1)] := by
  have e1 : trunc32 ((-3 : ℚ)) = -3 := trunc32_eval (-3) _ (by norm_num)
  have e2 : trunc32 ((-1 : ℚ)) = -1 := trunc32_eval (-1) _ (by norm_num)
  simp only [projCorners, projectPoint, hTransCE, thumbCE, imWidth, imHeight,
    List.headD, List.length_cons, List.length_nil, List.map_cons, List.map_nil]
  norm_num [e1, e2]

/-- Full evaluation of the reconstruction under the (-3, -3) translation:
the crop box keeps its negative coordinates and the slice wraps around,
returning a non-empty region cut from rows 1–2, columns 1–2. -/
lemma reconstruct_hTransCE_eval :
    reconstruct_thumbnail thumbCE srcCE hTransCE false =
      ([[11, 12], [21, 22]], ((-3, -1), (-3, -1)), 0) := by
  simp only [reconstruct_thumbnail]
  rw [projCorners_hTransCE]
  decide

/-- The projected corners under the degenerate homography. -/
lemma projCorners_hZeroCE :
    projCorners thumbCE hZeroCE = [(0, 0), (0, 0), (0, 0), (0, 0)] := by
  have e0 : trunc32 ((0 : ℚ)) = 0 := trunc32_eval 0 _ (by norm_num)
  simp only [projCorners, projectPoint, hZeroCE, thumbCE, imWidth, imHeight,
    List.headD, List.length_cons, List.length_nil, List.map_cons, List.map_nil]
  norm_num [e0]

/-- Full evaluation of the reconstruction under the degenerate homography:
the zero-area crop box yields an empty image, returned as a normal result. -/
lemma reconstruct_hZeroCE_eval :
    reconstruct_thumbnail thumbCE srcCE hZeroCE false =
      ([], ((0, 0), (0, 0)), 0) := by
  simp only [reconstruct_thumbnail]
  rw [projCorners_hZeroCE]
  decide

/-- C1 counterexample: under the (-3, -3) translation the crop box
`((-3, -1), (-3, -1))` has negative coordinates — it is not clamped to
`[0, source_height) × [0, source_width)` — and slicing with it wraps
around, returning the non-empty region `[[11, 12], [21, 22]]`; under the
degenerate homography the zero-area box returns an empty image as a normal
result instead of a reported failure. -/
theorem reconstruct_thumbnail_clamping_counterexample :
    reconstruct_thumbnail thumbCE srcCE hTransCE false =
      ([[11, 12], [21, 22]], ((-3, -1), (-3, -1)), 0) ∧
    (reconstruct_thumbnail thumbCE srcCE hTransCE false).2.1.1.1 < 0 ∧
    reconstruct_thumbnail thumbCE srcCE hZeroCE false =
      ([], ((0, 0), (0, 0)), 0) :=
  ⟨reconstruct_hTransCE_eval, by rw [reconstruct_hTransCE_eval]; decide,
   reconstruct_hZeroCE_eval⟩

/-- C1 amended witness: on the concrete wrap-around example every extracted
row is a piece of a source row, and on the degenerate example the returned
image is empty. -/
theorem reconstruct_thumbnail_no_clamp_safe_witness :
    (∃ orig ∈ srcCE, [(11 : Int), 12].Sublist orig) ∧
    (reconstruct_thumbnail thumbCE srcCE hZeroCE false).1 = [] :=
  ⟨(reconstruct_thumbnail_no_clamp_safe thumbCE srcCE hTransCE).1 [11, 12]
      (by rw [reconstruct_hTransCE_eval]; decide),
   (reconstruct_thumbnail_no_clamp_safe thumbCE srcCE hZeroCE).2.2
      (by rw [reconstruct_hZeroCE_eval])⟩

/-- Rounding half away from zero moves a value by at most 1/2. -/
lemma pyRound_abs_sub (q : ℚ) : |(pyRound q : ℚ) - q| ≤ 1 / 2 := by
  unfold pyRound
  split_ifs with h
  · have h1 := Int.floor_le (q + 1 / 2)
    have h2 := Int.sub_one_lt_floor (q + 1 / 2)
    rw [abs_le]
    constructor <;> push_cast at * <;> linarith
  · have h1 := Int.le_ceil (q - 1 / 2)
    have h2 := Int.ceil_lt_add_one (q - 1 / 2)
    rw [abs_le]
    constructor <;> push_cast at * <;> linarith

/-- `pyRound` of a nonnegative value is nonnegative. -/
lemma pyRound_nonneg (q : ℚ) (h : 0 ≤ q) : 0 ≤ pyRound q := by
  unfold pyRound
  rw [if_pos h, Int.le_floor]
  push_cast
  linarith

/-- `pyRound` is the identity on natural numbers. -/
lemma pyRound_natCast (n : ℕ) : pyRound ((n : ℚ)) = n := by
  unfold pyRound
  rw [if_pos (by positivity), Int.floor_eq_iff]
  constructor <;> push_cast <;> linarith

/-- The resize model produces exactly the requested number of rows. -/
lemma imHeight_cvResize (img : Image) (newW newH : Nat) :
    imHeight (cvResize img newW newH) = newH := by
  simp [imHeight, cvResize]

/-- The resize model produces rows of exactly the requested width (when
there is at least one row). -/
lemma imWidth_cvResize (img : Image) (newW newH : Nat) (h : newH ≠ 0) :
    imWidth (cvResize img newW newH) = newW := by
  unfold imWidth cvResize
  obtain ⟨k, rfl⟩ : ∃ k, newH = k + 1 := ⟨newH - 1, by omega⟩
  rw [List.range_succ_eq_map]
  simp

/-- Resizing to zero rows yields the empty image. -/
lemma cvResize_zero (img : Image) (newW : Nat) : cvResize img newW 0 = [] := by
  simp [cvResize]

/-- Cross-multiplied aspect-ratio bound for the two rounded dimensions:
rounding each axis independently perturbs the ratio by at most half a pixel
per axis. -/
lemma pyRound_aspect_bound (w h : ℕ) (s : ℚ) :
    2 * |pyRound ((w : ℚ) * s) * (h : ℤ) - pyRound ((h : ℚ) * s) * (w : ℤ)| ≤
      (h : ℤ) + (w : ℤ) := by
  have hW := pyRound_abs_sub ((w : ℚ) * s)
  have hN := pyRound_abs_sub ((h : ℚ) * s)
  rw [abs_le] at hW hN
  have hw0 : (0 : ℚ) ≤ (w : ℚ) := by positivity
  have hh0 : (0 : ℚ) ≤ (h : ℚ) := by positivity
  have p1 := mul_le_mul_of_nonneg_right hW.2 hh0
  have p2 := mul_le_mul_of_nonneg_right hW.1 hh0
  have p3 := mul_le_mul_of_nonneg_right hN.2 hw0
  have p4 := mul_le_mul_of_nonneg_right hN.1 hw0
  have habs : |(pyRound ((w : ℚ) * s) : ℚ) * (h : ℚ) -
      (pyRound ((h : ℚ) * s) : ℚ) * (w : ℚ)| ≤ ((h : ℚ) + (w : ℚ)) / 2 := by
    rw [abs_le]
    constructor <;> nlinarith [p1, p2, p3, p4]
  have hq : 2 * |(pyRound ((w : ℚ) * s) : ℚ) * (h : ℚ) -
      (pyRound ((h : ℚ) * s) : ℚ) * (w : ℚ)| ≤ (h : ℚ) + (w : ℚ) := by
    linarith [habs]
  exact_mod_cast hq

/-- C3 amended: `fit_image_within` preserves the aspect ratio within
rounding error (cross-multiplied: `2·|W'·h − H'·w| ≤ h + w`), and the
orientation-selected axis fits — the result's height is within
`max_height` whenever the image is strictly taller than wide, and the
result's width is within `max_width` whenever width ≥ height.  The claim's
bound on the *other* axis does not hold (see the counterexample). -/
theorem fit_image_within_scaled_axis (img : Image) (mh mw : Nat) :
    2 * |(imWidth (fit_image_within img mh mw) : Int) * (imHeight img : Int) -
          (imHeight (fit_image_within img mh mw) : Int) * (imWidth img : Int)| ≤
        (imHeight img : Int) + (imWidth img : Int) ∧
    (imWidth img < imHeight img → imHeight (fit_image_within img mh mw) ≤ mh) ∧
    (imHeight img ≤ imWidth img → imWidth (fit_image_within img mh mw) ≤ mw) := by
  by_cases hfit : imHeight img ≤ mh ∧ imWidth img ≤ mw
  · have hid : fit_image_within img mh mw = img := by
      unfold fit_image_within
      rw [if_pos hfit]
    rw [hid]
    refine ⟨?_, fun _ => hfit.1, fun _ => hfit.2⟩
    have h0 : (imWidth img : Int) * (imHeight img : Int) -
        (imHeight img : Int) * (imWidth img : Int) = 0 := by ring
    rw [h0, abs_zero, mul_zero]
    positivity
  · have hres : fit_image_within img mh mw =
        cvResize img
          (pyRound ((imWidth img : ℚ) *
            (if imWidth img < imHeight img then (mh : ℚ) / (imHeight img : ℚ)
             else (mw : ℚ) / (imWidth img : ℚ)))).toNat
          (pyRound ((imHeight img : ℚ) *
            (if imWidth img < imHeight img then (mh : ℚ) / (imHeight img : ℚ)
             else (mw : ℚ) / (imWidth img : ℚ)))).toNat := by
      unfold fit_image_within
      rw [if_neg hfit]
    set s : ℚ := if imWidth img < imHeight img then (mh : ℚ) / (imHeight img : ℚ)
      else (mw : ℚ) / (imWidth img : ℚ) with hs_def
    have hs0 : 0 ≤ s := by
      rw [hs_def]
      split_ifs <;> positivity
    have hWnn : 0 ≤ pyRound ((imWidth img : ℚ) * s) :=
      pyRound_nonneg _ (by positivity)
    have hNnn : 0 ≤ pyRound ((imHeight img : ℚ) * s) :=
      pyRound_nonneg _ (by positivity)
    refine ⟨?_, ?_, ?_⟩
    · by_cases hN : (pyRound ((imHeight img : ℚ) * s)).toNat = 0
      · rw [hres, hN, cvResize_zero]
        have hz1 : imWidth ([] : Image) = 0 := rfl
        have hz2 : imHeight ([] : Image) = 0 := rfl
        rw [hz1, hz2]
        simp only [Nat.cast_zero, zero_mul, sub_zero, sub_self, abs_zero, mul_zero]
        positivity
      · rw [hres, imHeight_cvResize, imWidth_cvResize _ _ _ hN,
          Int.toNat_of_nonneg hWnn, Int.toNat_of_nonneg hNnn]
        exact pyRound_aspect_bound (imWidth img) (imHeight img) s
    · intro hwh
      have hh1 : (imHeight img : ℚ) ≠ 0 := by
        have : 0 < imHeight img := by omega
        positivity
      have hsv : s = (mh : ℚ) / (imHeight img : ℚ) := by
        rw [hs_def, if_pos hwh]
      have hhs : (imHeight img : ℚ) * s = (mh : ℚ) := by
        rw [hsv]
        field_simp
      rw [hres, imHeight_cvResize, hhs, pyRound_natCast, Int.toNat_natCast]
    · intro hhw
      have hw1 : imWidth img ≠ 0 := by
        intro h0
        exact hfit ⟨by omega, by omega⟩
      have hw1' : (imWidth img : ℚ) ≠ 0 := by
        have : 0 < imWidth img := by omega
        positivity
      have hsv : s = (mw : ℚ) / (imWidth img : ℚ) := by
        rw [hs_def, if_neg (by omega)]
      have hws : (imWidth img : ℚ) * s = (mw : ℚ) := by
        rw [hsv]
        field_simp
      by_cases hN : (pyRound ((imHeight img : ℚ) * s)).toNat = 0
      · rw [hres, hN, cvResize_zero]
        simp [imWidth]
      · rw [hres, imWidth_cvResize _ _ _ hN, hws, pyRound_natCast,
          Int.toNat_natCast]

/-- A 10×100 image: wider than tall, but with its height exceeding the
height budget. -/
def imgWide : Image := List.replicate 10 (List.replicate 100 0)

/-- C3 counterexample: `imgWide` has height 10 > 5, so it must be resized
to fit within 5×200; the code scales by `max_width / w = 2` because the
image is wider than tall, and the result has height 20, violating the
claimed `height ≤ max_height`. -/
theorem fit_image_within_counterexample :
    5 < imHeight imgWide ∧ imHeight (fit_image_within imgWide 5 200) = 20 := by
  constructor
  · decide
  · have h1 : imHeight imgWide = 10 := rfl
    have h2 : imWidth imgWide = 100 := rfl
    simp only [fit_image_within]
    rw [h1, h2, if_neg (by omega), if_neg (show ¬ ((10 : ℕ) > 100) by omega),
      imHeight_cvResize,
      show ((10 : ℕ) : ℚ) * (((200 : ℕ) : ℚ) / ((100 : ℕ) : ℚ)) = ((20 : ℕ) : ℚ)
        by push_cast; norm_num,
      pyRound_natCast, Int.toNat_natCast]

/-- C3 amended witness: a 2×1 (taller-than-wide) image fits the height
budget after resizing, and a 1×2 (wider-than-tall) image fits the width
budget after resizing. -/
theorem fit_image_within_scaled_axis_witness :
    imHeight (fit_image_within [[1], [2]] 1 5) ≤ 1 ∧
    imWidth (fit_image_within [[1, 2]] 5 1) ≤ 1 :=
  ⟨(fit_image_within_scaled_axis [[1], [2]] 1 5).2.1 (by decide),
   (fit_image_within_scaled_axis [[1, 2]] 5 1).2.2 (by decide)⟩

end ImageMining
